import Mathlib

/-!
Shallow embedding of the zewos storage core (oblivisheee/zewos):
`zewos-storage/src/{object,backup,cache,index}.rs` and `zewos/src/storage.rs`.

Rust byte strings (`Vec<u8>`) are modelled as `List Nat`; timestamps
(`chrono::Utc::now()`, `std::time::Instant::now()`) are modelled as `Nat`
oracle inputs threaded into each operation; the concurrent maps (`DashMap`)
are modelled as association lists with in-place replacement, which matches
the per-key functional behaviour of the source.  External library
primitives (sha3, bincode, serde_json, zstd) are not part of the repository;
they are modelled by concrete executable codecs that satisfy the round-trip
contracts the source relies on.
-/

abbrev Bytes := List Nat

/-- Model of the external SHA3-256 digest (`zewos-core/src/hash.rs`,
`Sha256::new`, backed by the `sha3` crate).  The claims only depend on which
input is hashed, so the digest is modelled as an injective executable
function. -/
def sha3_256 (data : Bytes) : Bytes :=
  data.length :: data

/-- Association-list lookup: first binding of the key, as in `DashMap::get`. -/
def mapGet {β : Type} : List (Bytes × β) → Bytes → Option β
  | [], _ => none
  | (k', v) :: rest, k => if k' = k then some v else mapGet rest k

/-- Association-list insert with in-place replacement, returning the new map
and the previous value, as in `DashMap::insert`. -/
def mapInsert {β : Type} : List (Bytes × β) → Bytes → β → List (Bytes × β) × Option β
  | [], k, v => ([(k, v)], none)
  | (k', v') :: rest, k, v =>
    if k' = k then ((k, v) :: rest, some v')
    else
      let r := mapInsert rest k v
      ((k', v') :: r.1, r.2)

/-- Association-list removal returning the new map and the removed value, as
in `DashMap::remove`. -/
def mapRemove {β : Type} : List (Bytes × β) → Bytes → List (Bytes × β) × Option β
  | [], _ => ([], none)
  | (k', v') :: rest, k =>
    if k' = k then (rest, some v')
    else
      let r := mapRemove rest k
      ((k', v') :: r.1, r.2)

inductive ObjectError where
  | InvalidName (msg : String)
  | InvalidSize (size : Nat)
  | InvalidData
  | SerializeError
deriving DecidableEq

inductive CacheError where
  | InsertionError (msg : String)
  | BackupLoadError (msg : String)
deriving DecidableEq

inductive BackupError where
  | IoError
  | SerializationError
  | DeserializationError
  | ObjectError (e : ObjectError)
  | NoVersionsFound
deriving DecidableEq

inductive StorageError where
  | Io
  | Compression (msg : String)
  | Decompression (msg : String)
  | KeyNotFound
  | VersionNotFound
  | BackupError (e : BackupError)
  | ObjectError (e : ObjectError)
  | CacheError (e : CacheError)
deriving DecidableEq

/-- Per-object metadata (`zewos-storage/src/object.rs`, `Metadata`).  The
Rust `String` name is modelled as its byte sequence, timestamps as `Nat`. -/
structure Metadata where
  name : Bytes
  size : Nat
  created_at : Nat
  last_updated : Nat
deriving DecidableEq

/-- Value wrapper (`zewos-storage/src/object.rs`, `Object`). -/
structure Object where
  data : Bytes
  metadata : Metadata
deriving DecidableEq

/-- Byte-sequence model of the generated name
`format!("Object_\x7b\x7d", Utc::now().timestamp())`: the bytes of
"Object_" followed by the timestamp. -/
def objectNameBytes (now : Nat) : Bytes :=
  [79, 98, 106, 101, 99, 116, 95] ++ [now]

/-- Constructor guard of `Metadata::new`: empty names and zero sizes are
rejected. -/
def Metadata.new (name : Bytes) (size : Nat) (now : Nat) : Except ObjectError Metadata :=
  if name = [] then .error (.InvalidName "Name cannot be empty")
  else if size = 0 then .error (.InvalidSize size)
  else .ok { name := name, size := size, created_at := now, last_updated := now }

/-- Constructor guard of `Object::new`: empty data is rejected; the metadata
records `size = data.len()` and a generated name. -/
def Object.new (data : Bytes) (now : Nat) : Except ObjectError Object :=
  if data = [] then .error .InvalidData
  else
    match Metadata.new (objectNameBytes now) data.length now with
    | .ok m => .ok { data := data, metadata := m }
    | .error e => .error e

def Object.to_bytes (o : Object) : Bytes := o.data

def Object.len (o : Object) : Nat := o.data.length

def Object.size (o : Object) : Nat := o.metadata.size

/-- Aggregate backup metadata (`zewos-core/src/metadata.rs`,
`BackupMetadata`). -/
structure BackupMetadata where
  creation_date : Nat
  last_modified : Nat
  total_size : Nat
  object_count : Nat
  compression_level : Option Nat
deriving DecidableEq

/-- Mirrors `BackupMetadata::new(total_size, compression_level)`:
`object_count` starts at zero and both timestamps at the current time. -/
def BackupMetadata.new (total_size : Nat) (compression_level : Option Nat) (now : Nat) :
    BackupMetadata :=
  { creation_date := now, last_modified := now, total_size := total_size
    object_count := 0, compression_level := compression_level }

structure BackupConfig where
  compression_level : Option Nat
deriving DecidableEq

def BackupConfig.new : BackupConfig := { compression_level := some 3 }

/-- Canonical in-memory store (`zewos-storage/src/backup.rs`, `Backup`). -/
structure Backup where
  metadata : BackupMetadata
  objects : List (Bytes × Object)
  hash : Bytes
  config : BackupConfig
deriving DecidableEq

/-- Model of `bincode::serialize(&self.objects)`: a deterministic
self-delimiting encoding of the association list; each field is emitted as a
length-prefixed segment.  The empty map encodes to the empty byte string. -/
def encSeg (xs : Bytes) : Bytes := xs.length :: xs

def encEntry (e : Bytes × Object) : Bytes :=
  encSeg e.1 ++ encSeg e.2.data ++ encSeg e.2.metadata.name ++
    encSeg [e.2.metadata.size, e.2.metadata.created_at, e.2.metadata.last_updated]

def bincodeSerializeObjects : List (Bytes × Object) → Bytes
  | [] => []
  | e :: rest => encEntry e ++ bincodeSerializeObjects rest

/-- Decoder for one length-prefixed segment: returns the segment and the
remaining bytes. -/
def decSeg : Bytes → Option (Bytes × Bytes)
  | [] => none
  | n :: rest => if n ≤ rest.length then some (rest.take n, rest.drop n) else none

/-- Fuelled decoder for the entry list (model of `bincode::deserialize`). -/
def decEntries : Nat → Bytes → Option (List (Bytes × Object))
  | _, [] => some []
  | 0, _ :: _ => none
  | fuel + 1, x :: l =>
    match decSeg (x :: l) with
    | none => none
    | some s1 =>
      match decSeg s1.2 with
      | none => none
      | some s2 =>
        match decSeg s2.2 with
        | none => none
        | some s3 =>
          match decSeg s3.2 with
          | none => none
          | some s4 =>
            match s4.1 with
            | [sz, ca, lu] =>
              match decEntries fuel s4.2 with
              | none => none
              | some rest => some ((s1.1, ⟨s2.1, ⟨s3.1, sz, ca, lu⟩⟩) :: rest)
            | _ => none

def bincodeDeserializeObjects (b : Bytes) : Option (List (Bytes × Object)) :=
  decEntries b.length b

/-- Model of `zstd::encode_all` (`compression.rs`, `compress_bytes`): a
self-delimited frame; the level does not affect the decoded content. -/
def compress_bytes (input : Bytes) (_level : Nat) : Bytes :=
  input.length :: input

/-- Model of `zstd::decode_all` (`compression.rs`, `decompress_bytes`). -/
def decompress_bytes : Bytes → Option Bytes
  | [] => none
  | n :: rest => if rest.length = n then some rest else none

/-- Model of `serde_json::to_vec(&self.metadata)`. -/
def jsonEncodeMetadata (m : BackupMetadata) : Bytes :=
  [m.creation_date, m.last_modified, m.total_size, m.object_count] ++
    (match m.compression_level with
     | none => [0]
     | some n => [1, n])

/-- Model of `serde_json::from_slice` for `BackupMetadata`. -/
def jsonDecodeMetadata : Bytes → Option BackupMetadata
  | [c, l, t, o, 0] => some ⟨c, l, t, o, none⟩
  | [c, l, t, o, 1, n] => some ⟨c, l, t, o, some n⟩
  | _ => none

/-- Model of `serde_json::to_vec(&self.config)`. -/
def jsonEncodeConfig : BackupConfig → Bytes
  | ⟨none⟩ => [0]
  | ⟨some n⟩ => [1, n]

/-- Model of `serde_json::from_slice` for `BackupConfig`. -/
def jsonDecodeConfig : Bytes → Option BackupConfig
  | [0] => some ⟨none⟩
  | [1, n] => some ⟨some n⟩
  | _ => none

/-- Mirrors the private `Backup::update_hash`: the content hash is
recomputed from the bincode encoding of the objects map. -/
def Backup.update_hash (b : Backup) : Backup :=
  { b with hash := sha3_256 (bincodeSerializeObjects b.objects) }

/-- Mirrors `Backup::with_config`: empty map, fresh metadata, and
`hash = Sha256::new(&[])`. -/
def Backup.with_config (config : BackupConfig) (now : Nat) : Backup :=
  { metadata := BackupMetadata.new 0 config.compression_level now
    objects := []
    hash := sha3_256 []
    config := config }

def Backup.new (now : Nat) : Backup :=
  Backup.with_config BackupConfig.new now

/-- Mirrors `Backup::insert`: unconditional map insert, then
`object_count += 1`, `total_size += v.len()`, refresh `last_modified`,
recompute the hash.  Note the counters are bumped even when the insert
replaced an existing key. -/
def Backup.insert (b : Backup) (k : Bytes) (v : Object) (now : Nat) :
    Except BackupError (Option Object × Backup) :=
  let r := mapInsert b.objects k v
  let md := { b.metadata with
              object_count := b.metadata.object_count + 1
              total_size := b.metadata.total_size + v.len
              last_modified := now }
  .ok (r.2, Backup.update_hash { b with objects := r.1, metadata := md })

def Backup.get (b : Backup) (k : Bytes) : Option Object :=
  mapGet b.objects k

/-- Mirrors `Backup::remove`: counters are adjusted and the hash recomputed
only when a binding was actually removed. -/
def Backup.remove (b : Backup) (k : Bytes) (now : Nat) :
    Except BackupError (Option Object × Backup) :=
  let r := mapRemove b.objects k
  match r.2 with
  | some obj =>
    let md := { b.metadata with
                object_count := b.metadata.object_count - 1
                total_size := b.metadata.total_size - obj.len
                last_modified := now }
    .ok (some obj, Backup.update_hash { b with objects := r.1, metadata := md })
  | none => .ok (none, b)

/-- Mirrors `Backup::serialize_custom`: JSON sidecars for metadata and
config, bincode encoding of the objects map compressed at
`level.unwrap_or(3)`. -/
def Backup.serialize_custom (b : Backup) (level : Option Nat) :
    Except BackupError (Bytes × Bytes × Bytes) :=
  let metadata_json := jsonEncodeMetadata b.metadata
  let config_json := jsonEncodeConfig b.config
  let object_data := bincodeSerializeObjects b.objects
  let compressed := compress_bytes object_data (level.getD 3)
  .ok (compressed, metadata_json, config_json)

/-- Mirrors `Backup::serialize` (three-blob revision in
`src/zewos-storage/src/backup.rs`). -/
def Backup.serialize (b : Backup) : Except BackupError (Bytes × Bytes × Bytes) :=
  b.serialize_custom b.config.compression_level

/-- Mirrors `Backup::deserialize`: JSON-decode the sidecars, decompress,
bincode-decode the objects, then recompute the hash. -/
def Backup.deserialize (metadata data config : Bytes) : Except BackupError Backup :=
  match jsonDecodeMetadata metadata with
  | none => .error .SerializationError
  | some md =>
    match jsonDecodeConfig config with
    | none => .error .SerializationError
    | some cfg =>
      match decompress_bytes data with
      | none => .error .IoError
      | some decompressed =>
        match bincodeDeserializeObjects decompressed with
        | none => .error .DeserializationError
        | some objects =>
          .ok (Backup.update_hash
            { metadata := md, objects := objects, hash := sha3_256 [], config := cfg })

def Backup.get_metadata (b : Backup) : Except BackupError BackupMetadata :=
  .ok b.metadata

inductive EvictionStrategy where
  | LeastRecentlyUsed
  | FirstInFirstOut
deriving DecidableEq

/-- Cache configuration (`zewos-storage/src/cache.rs`, `CacheConfig`);
`ttl` is modelled in the same abstract time unit as the clock. -/
structure CacheConfig where
  max_size : Nat
  ttl : Nat
  eviction_strategy : EvictionStrategy
deriving DecidableEq

def CacheConfig.default : CacheConfig :=
  { max_size := 1024 * 1024 * 1024, ttl := 300
    eviction_strategy := .LeastRecentlyUsed }

structure CacheEntry where
  object : Object
  last_accessed : Nat
deriving DecidableEq

/-- Cache state (`zewos-storage/src/cache.rs`, `CacheManager`).  The Rust
struct keeps its one `CacheConfig` inside a single-entry `DashMap<(), _>`
that is populated in `new` and replaced in `update_config`; that map always
holds exactly one value, so it is modelled as a plain field. -/
structure CacheManager where
  cache : List (Bytes × CacheEntry)
  config : CacheConfig
deriving DecidableEq

def CacheManager.new (config : CacheConfig) : CacheManager :=
  { cache := [], config := config }

/-- Mirrors the touching read of `CacheManager::get`: on a hit the entry's
`last_accessed` is set to now and the object returned; a miss leaves the
cache untouched. -/
def cacheTouch : List (Bytes × CacheEntry) → Bytes → Nat →
    Option Object × List (Bytes × CacheEntry)
  | [], _, _ => (none, [])
  | (k', e) :: rest, k, now =>
    if k' = k then (some e.object, (k', { e with last_accessed := now }) :: rest)
    else
      let r := cacheTouch rest k now
      (r.1, (k', e) :: r.2)

def CacheManager.get (c : CacheManager) (k : Bytes) (now : Nat) :
    Option Object × CacheManager :=
  let r := cacheTouch c.cache k now
  (r.1, { c with cache := r.2 })

/-- Rust `Iterator::min_by_key` keeps the last element among equal minima;
the iteration order of the `DashMap` is modelled by the list order. -/
def minByAccess : List (Bytes × CacheEntry) → Option (Bytes × CacheEntry)
  | [] => none
  | e :: rest =>
    match minByAccess rest with
    | none => some e
    | some m => if m.2.last_accessed ≤ e.2.last_accessed then some m else some e

/-- Mirrors `CacheManager::evict_lru`: remove the entry with the minimal
`last_accessed`, or fail when the cache is empty. -/
def CacheManager.evict_lru (c : CacheManager) : Except CacheError CacheManager :=
  match minByAccess c.cache with
  | some e => .ok { c with cache := (mapRemove c.cache e.1).1 }
  | none => .error (.InsertionError "Failed to evict LRU item")

/-- Mirrors `CacheManager::evict_fifo`: remove the first entry in iteration
order, or fail when the cache is empty. -/
def CacheManager.evict_fifo (c : CacheManager) : Except CacheError CacheManager :=
  match c.cache with
  | e :: _ => .ok { c with cache := (mapRemove c.cache e.1).1 }
  | [] => .error (.InsertionError "Failed to evict FIFO item")

def CacheManager.evict (c : CacheManager) : Except CacheError CacheManager :=
  match c.config.eviction_strategy with
  | .LeastRecentlyUsed => c.evict_lru
  | .FirstInFirstOut => c.evict_fifo

/-- Mirrors `CacheManager::insert`: when `len >= max_size` one entry is
evicted first (an eviction failure aborts the insert), then the new entry is
stored with `last_accessed = now`. -/
def CacheManager.insert (c : CacheManager) (k : Bytes) (v : Object) (now : Nat) :
    Except CacheError CacheManager :=
  let entry : CacheEntry := { object := v, last_accessed := now }
  match (if c.cache.length ≥ c.config.max_size then c.evict else .ok c) with
  | .error e => .error e
  | .ok c1 => .ok { c1 with cache := (mapInsert c1.cache k entry).1 }

def CacheManager.remove (c : CacheManager) (k : Bytes) :
    Option Object × CacheManager :=
  let r := mapRemove c.cache k
  ((r.2.map fun e => e.object), { c with cache := r.1 })

def CacheManager.clear (c : CacheManager) : CacheManager :=
  { c with cache := [] }

/-- Mirrors `CacheManager::evict_expired`: retain exactly the entries with
`now - last_accessed <= ttl`. -/
def CacheManager.evict_expired (c : CacheManager) (now : Nat) : CacheManager :=
  { c with cache := c.cache.filter fun e => now - e.2.last_accessed ≤ c.config.ttl }

/-- Helper for `load_from_backup`: inserts the entries one by one; an
insertion failure propagates but the entries already inserted remain, as
with the interior-mutable Rust map. -/
def cacheLoadEntries (c : CacheManager) :
    List (Bytes × Object) → Nat → Except CacheError Unit × CacheManager
  | [], _ => (.ok (), c)
  | (k, v) :: rest, now =>
    match c.insert k v now with
    | .ok c' => cacheLoadEntries c' rest now
    | .error e => (.error e, c)

def CacheManager.load_from_backup (c : CacheManager) (b : Backup) (now : Nat) :
    Except CacheError Unit × CacheManager :=
  cacheLoadEntries c b.objects now

def CacheManager.get_size (c : CacheManager) : Nat := c.cache.length

def CacheManager.contains_key (c : CacheManager) (k : Bytes) : Bool :=
  (mapGet c.cache k).isSome

def CacheManager.update_config (c : CacheManager) (config : CacheConfig) : CacheManager :=
  { c with config := config }

/-- Read-through / write-through facade (`zewos-storage/src/index.rs`,
`StorageIndex`).  The `Arc<RwLock<_>>` wrappers serialize access; the
single-threaded model keeps the two components as plain fields. -/
structure StorageIndex where
  backup : Backup
  cache : CacheManager
deriving DecidableEq

/-- Mirrors `StorageIndex::new` (always `Ok` in the source). -/
def StorageIndex.new (cache_config : CacheConfig) (now : Nat) : StorageIndex :=
  { backup := Backup.new now, cache := CacheManager.new cache_config }

/-- Mirrors `StorageIndex::insert`: wrap the value in an `Object`, insert
into the backup, then into the cache.  A cache failure propagates after the
backup was already mutated, so the state is returned alongside the result. -/
def StorageIndex.insert (s : StorageIndex) (key value : Bytes) (now : Nat) :
    Except StorageError (Option Bytes) × StorageIndex :=
  match Object.new value now with
  | .error e => (.error (.ObjectError e), s)
  | .ok object =>
    match s.backup.insert key object now with
    | .error e => (.error (.BackupError e), s)
    | .ok rb =>
      match s.cache.insert key object now with
      | .error e => (.error (.CacheError e), { s with backup := rb.2 })
      | .ok cache =>
        (.ok (rb.1.map Object.to_bytes), { backup := rb.2, cache := cache })

/-- Mirrors `StorageIndex::get`: cache first; on a miss read the backup and
repopulate the cache best-effort (`let _ = ...` swallows the error); a miss
on both fails with `KeyNotFound`. -/
def StorageIndex.get (s : StorageIndex) (key : Bytes) (now : Nat) :
    Except StorageError Bytes × StorageIndex :=
  match CacheManager.get s.cache key now with
  | (some object, cache) => (.ok object.to_bytes, { s with cache := cache })
  | (none, cache) =>
    match s.backup.get key with
    | some object =>
      let cache :=
        match cache.insert key object now with
        | .ok c => c
        | .error _ => cache
      (.ok object.to_bytes, { s with cache := cache })
    | none => (.error .KeyNotFound, { s with cache := cache })

/-- Mirrors `StorageIndex::remove`: backup removal then cache removal. -/
def StorageIndex.remove (s : StorageIndex) (key : Bytes) (now : Nat) :
    Except StorageError (Option Bytes) × StorageIndex :=
  match s.backup.remove key now with
  | .error e => (.error (.BackupError e), s)
  | .ok rb =>
    let rc := s.cache.remove key
    (.ok (rb.1.map Object.to_bytes), { backup := rb.2, cache := rc.2 })

def StorageIndex.contains_key (s : StorageIndex) (key : Bytes) : Bool :=
  (s.backup.get key).isSome

def StorageIndex.len (s : StorageIndex) : Nat :=
  s.backup.objects.length

/-- Two-blob `Backup` serialization with a compression-level override, as
invoked by `StorageIndex::serialize_backup` in
`src/zewos-storage/src/index.rs` and `Storage::save` in
`src/zewos/src/storage.rs`.  Modelled from the spec: the `Backup` method of
this arity is absent from `src/` (`src/zewos-storage/src/backup.rs` carries
the later three-blob revision); per its call sites and the spec's
serialization pipeline it returns the compressed bincode objects blob and
the JSON metadata blob. -/
def Backup.serialize_two_blob (b : Backup) (level : Option Nat) :
    Except BackupError (Bytes × Bytes) :=
  .ok (compress_bytes (bincodeSerializeObjects b.objects) (level.getD 3),
       jsonEncodeMetadata b.metadata)

/-- Mirrors `StorageIndex::serialize_backup` (two-blob revision in
`src/zewos-storage/src/index.rs`, lines 57-64). -/
def StorageIndex.serialize_backup (s : StorageIndex) (compression_level : Option Nat) :
    Except StorageError (Bytes × Bytes) :=
  match s.backup.serialize_two_blob compression_level with
  | .ok r => .ok r
  | .error e => .error (.BackupError e)

/-- On-disk blob slots managed by the `zewos-dir` layer: `Directory` exposes
handles for `objects/objects.bin`, `metadata.zewos` and `config.zewos`. -/
structure Disk where
  objsFile : Option Bytes
  metadataFile : Option Bytes
  configFile : Option Bytes
deriving DecidableEq

/-- Top-level store (`zewos/src/storage.rs`, `Storage`).  The directory and
logger handles are modelled by the blob slots; `LogsManager::add_log` is an
always-succeeding sink irrelevant to the claims. -/
structure Storage where
  index : StorageIndex
  disk : Disk
deriving DecidableEq

/-- Mirrors `Storage::save`: serialize the backup at level 3 and write the
objects blob and the metadata blob to their files.  No config blob is
produced or written in this revision. -/
def Storage.save (st : Storage) : Except StorageError Storage :=
  match st.index.serialize_backup (some 3) with
  | .error e => .error e
  | .ok r =>
    .ok { st with
          disk := { st.disk with objsFile := some r.1, metadataFile := some r.2 } }

/-- Mirrors `Storage::insert`: delegate to the index, then call `save`
unconditionally — also when the index mutation returned an error. -/
def Storage.insert (st : Storage) (key value : Bytes) (now : Nat) :
    Except StorageError (Option Bytes) × Storage :=
  let r := st.index.insert key value now
  match Storage.save { st with index := r.2 } with
  | .ok st' => (r.1, st')
  | .error e => (.error e, { st with index := r.2 })

/-- Mirrors `Storage::remove`: delegate to the index, then call `save`
unconditionally. -/
def Storage.remove (st : Storage) (key : Bytes) (now : Nat) :
    Except StorageError (Option Bytes) × Storage :=
  let r := st.index.remove key now
  match Storage.save { st with index := r.2 } with
  | .ok st' => (r.1, st')
  | .error e => (.error e, { st with index := r.2 })

theorem mapGet_mapInsert_self {β : Type} (m : List (Bytes × β)) (k : Bytes) (v : β) :
    mapGet (mapInsert m k v).1 k = some v := by
  induction m with
  | nil => simp [mapInsert, mapGet]
  | cons e rest ih =>
    obtain ⟨k', v'⟩ := e
    by_cases h : k' = k
    · simp [mapInsert, h, mapGet]
    · simp [mapInsert, h, mapGet, ih]

theorem mapInsert_snd {β : Type} (m : List (Bytes × β)) (k : Bytes) (v : β) :
    (mapInsert m k v).2 = mapGet m k := by
  induction m with
  | nil => simp [mapInsert, mapGet]
  | cons e rest ih =>
    obtain ⟨k', v'⟩ := e
    by_cases h : k' = k
    · simp [mapInsert, h, mapGet]
    · simp [mapInsert, h, mapGet, ih]

theorem mapInsert_length_le {β : Type} (m : List (Bytes × β)) (k : Bytes) (v : β) :
    (mapInsert m k v).1.length ≤ m.length + 1 := by
  induction m with
  | nil => simp [mapInsert]
  | cons e rest ih =>
    obtain ⟨k', v'⟩ := e
    by_cases h : k' = k
    · simp [mapInsert, h]
    · simp only [mapInsert, h, if_false, List.length_cons]
      omega

theorem mapInsert_length_of_some {β : Type} (m : List (Bytes × β)) (k : Bytes) (v : β)
    (h : (mapGet m k).isSome = true) :
    (mapInsert m k v).1.length = m.length := by
  induction m with
  | nil => simp [mapGet] at h
  | cons e rest ih =>
    obtain ⟨k', v'⟩ := e
    by_cases hk : k' = k
    · simp [mapInsert, hk]
    · simp only [mapGet, hk, if_false] at h
      simp only [mapInsert, hk, if_false, List.length_cons, ih h]

theorem mapRemove_snd {β : Type} (m : List (Bytes × β)) (k : Bytes) :
    (mapRemove m k).2 = mapGet m k := by
  induction m with
  | nil => simp [mapRemove, mapGet]
  | cons e rest ih =>
    obtain ⟨k', v'⟩ := e
    by_cases h : k' = k
    · simp [mapRemove, h, mapGet]
    · simp [mapRemove, h, mapGet, ih]

theorem mapRemove_length_le {β : Type} (m : List (Bytes × β)) (k : Bytes) :
    (mapRemove m k).1.length ≤ m.length := by
  induction m with
  | nil => simp [mapRemove]
  | cons e rest ih =>
    obtain ⟨k', v'⟩ := e
    by_cases h : k' = k
    · simp [mapRemove, h]
    · simp only [mapRemove, h, if_false, List.length_cons]
      omega

theorem mapRemove_length_of_some {β : Type} (m : List (Bytes × β)) (k : Bytes)
    (h : (mapGet m k).isSome = true) :
    (mapRemove m k).1.length + 1 = m.length := by
  induction m with
  | nil => simp [mapGet] at h
  | cons e rest ih =>
    obtain ⟨k', v'⟩ := e
    by_cases hk : k' = k
    · simp [mapRemove, hk]
    · simp only [mapGet, hk, if_false] at h
      simp only [mapRemove, hk, if_false, List.length_cons]
      have := ih h
      omega

theorem cacheTouch_fst (m : List (Bytes × CacheEntry)) (k : Bytes) (now : Nat) :
    (cacheTouch m k now).1 = (mapGet m k).map (fun e => e.object) := by
  induction m with
  | nil => simp [cacheTouch, mapGet]
  | cons e rest ih =>
    obtain ⟨k', v'⟩ := e
    by_cases h : k' = k
    · simp [cacheTouch, h, mapGet]
    · simp [cacheTouch, h, mapGet, ih]

theorem cacheTouch_length (m : List (Bytes × CacheEntry)) (k : Bytes) (now : Nat) :
    (cacheTouch m k now).2.length = m.length := by
  induction m with
  | nil => simp [cacheTouch]
  | cons e rest ih =>
    obtain ⟨k', v'⟩ := e
    by_cases h : k' = k
    · simp [cacheTouch, h]
    · simp [cacheTouch, h, ih]

theorem minByAccess_mem (m : List (Bytes × CacheEntry)) (e : Bytes × CacheEntry)
    (h : minByAccess m = some e) : e ∈ m := by
  induction m generalizing e with
  | nil => simp [minByAccess] at h
  | cons hd rest ih =>
    simp only [minByAccess] at h
    cases hm : minByAccess rest with
    | none => rw [hm] at h; cases h; simp
    | some m' =>
      rw [hm] at h
      by_cases hle : m'.2.last_accessed ≤ hd.2.last_accessed
      · simp only [hle, if_true] at h
        cases h
        exact List.mem_cons_of_mem _ (ih _ hm)
      · simp only [hle, if_false] at h
        cases h
        simp

theorem minByAccess_isSome (m : List (Bytes × CacheEntry)) (h : m ≠ []) :
    (minByAccess m).isSome = true := by
  cases m with
  | nil => exact absurd rfl h
  | cons hd rest =>
    simp only [minByAccess]
    cases minByAccess rest with
    | none => rfl
    | some m' =>
      by_cases hle : m'.2.last_accessed ≤ hd.2.last_accessed <;> simp [hle]

theorem mapGet_isSome_of_mem {β : Type} (m : List (Bytes × β)) (e : Bytes × β)
    (h : e ∈ m) : (mapGet m e.1).isSome = true := by
  induction m with
  | nil => simp at h
  | cons hd rest ih =>
    obtain ⟨k', v'⟩ := hd
    by_cases hk : k' = e.1
    · simp [mapGet, hk]
    · simp only [mapGet, hk, if_false]
      rcases List.mem_cons.1 h with h1 | h2
      · rw [h1] at hk; simp at hk
      · exact ih h2

theorem decSeg_cons (xs r : Bytes) : decSeg (xs.length :: (xs ++ r)) = some (xs, r) := by
  simp [decSeg, List.take_left, List.drop_left]

theorem decompress_compress (x : Bytes) (level : Nat) :
    decompress_bytes (compress_bytes x level) = some x := by
  simp [compress_bytes, decompress_bytes]

theorem jsonDecodeMetadata_enc (m : BackupMetadata) :
    jsonDecodeMetadata (jsonEncodeMetadata m) = some m := by
  obtain ⟨c, l, t, o, lvl⟩ := m
  cases lvl <;> rfl

theorem jsonDecodeConfig_enc (c : BackupConfig) :
    jsonDecodeConfig (jsonEncodeConfig c) = some c := by
  obtain ⟨lvl⟩ := c
  cases lvl <;> rfl

theorem decSeg_triple (sz ca lu : Nat) (tail : Bytes) :
    decSeg ((0 + 1 + 1 + 1) :: sz :: ca :: lu :: tail) = some ([sz, ca, lu], tail) := by
  simp [decSeg]

theorem decEntries_step (fuel : Nat) (k d nm : Bytes) (sz ca lu : Nat)
    (tail : Bytes) (rest : List (Bytes × Object))
    (ih : decEntries fuel tail = some rest) :
    decEntries (fuel + 1)
      (encSeg k ++ (encSeg d ++ (encSeg nm ++ (encSeg [sz, ca, lu] ++ tail)))) =
      some ((k, ⟨d, ⟨nm, sz, ca, lu⟩⟩) :: rest) := by
  simp only [encSeg, List.cons_append, List.length_cons, List.length_nil]
  simp only [decEntries, decSeg_cons, List.nil_append, decSeg_triple, ih]

theorem decEntries_enc : ∀ (m : List (Bytes × Object)) (fuel : Nat),
    m.length ≤ fuel → decEntries fuel (bincodeSerializeObjects m) = some m
  | [], fuel, _ => by cases fuel <;> rfl
  | e :: rest, 0, h => by simp at h
  | e :: rest, fuel + 1, h => by
    have ih := decEntries_enc rest fuel (by simpa using Nat.le_of_succ_le_succ h)
    show decEntries (fuel + 1) (bincodeSerializeObjects (e :: rest)) = _
    rw [bincodeSerializeObjects, encEntry, List.append_assoc, List.append_assoc,
      List.append_assoc]
    exact decEntries_step fuel e.1 e.2.data e.2.metadata.name e.2.metadata.size
      e.2.metadata.created_at e.2.metadata.last_updated
      (bincodeSerializeObjects rest) rest ih

theorem bincode_objects_roundtrip (m : List (Bytes × Object)) :
    bincodeDeserializeObjects (bincodeSerializeObjects m) = some m := by
  have hle : ∀ l : List (Bytes × Object), l.length ≤ (bincodeSerializeObjects l).length := by
    intro l
    induction l with
    | nil => simp [bincodeSerializeObjects]
    | cons e rest ih =>
      simp only [bincodeSerializeObjects, List.length_append, List.length_cons]
      have : 1 ≤ (encEntry e).length := by
        simp [encEntry, encSeg]
      omega
  exact decEntries_enc m _ (hle m)

/-- The single operations of the `Backup` API that mutate state, tagged with
the clock value the source would read from `chrono::Utc::now()`. -/
inductive BackupOp where
  | ins (k : Bytes) (v : Object) (now : Nat)
  | rem (k : Bytes) (now : Nat)

def Backup.applyOp (b : Backup) : BackupOp → Backup
  | .ins k v now =>
    match b.insert k v now with
    | .ok r => r.2
    | .error _ => b
  | .rem k now =>
    match b.remove k now with
    | .ok r => r.2
    | .error _ => b

def Backup.runOps (b : Backup) (ops : List BackupOp) : Backup :=
  ops.foldl Backup.applyOp b

/-- The content-hash invariant of the spec: the stored hash is the SHA3-256
digest of the canonical encoding of the objects map. -/
def hashInv (b : Backup) : Prop :=
  b.hash = sha3_256 (bincodeSerializeObjects b.objects)

theorem hashInv_applyOp (b : Backup) (op : BackupOp) (h : hashInv b) :
    hashInv (b.applyOp op) := by
  cases op with
  | ins k v now => rfl
  | rem k now =>
    show hashInv (match b.remove k now with | .ok r => r.2 | .error _ => b)
    simp only [Backup.remove]
    cases hr : (mapRemove b.objects k).2 with
    | some obj => rfl
    | none => exact h

theorem hashInv_runOps (b : Backup) (ops : List BackupOp) (h : hashInv b) :
    hashInv (b.runOps ops) := by
  induction ops generalizing b with
  | nil => exact h
  | cons op rest ih => exact ih _ (hashInv_applyOp b op h)

/-- C5: in every Backup state reachable by insert and remove operations from
a fresh Backup, the content hash equals SHA3-256 of the canonical encoding
of the objects map (it is recomputed on every mutation), and in the freshly
constructed empty Backup the hash is SHA3-256 of the empty byte string. -/
theorem backup_content_hash_spec (now : Nat) (ops : List BackupOp) :
    (Backup.new now).hash = sha3_256 [] ∧
    ((Backup.new now).runOps ops).hash =
      sha3_256 (bincodeSerializeObjects ((Backup.new now).runOps ops).objects) :=
  ⟨rfl, hashInv_runOps _ ops rfl⟩

/-- C3: deserializing the output of serialize yields a Backup equal to the
original, compared via object_count, total_size, and per-key to_bytes of
every stored object. -/
theorem backup_serialize_roundtrip (b : Backup) :
    ∃ d m c b', b.serialize = .ok (d, m, c) ∧ Backup.deserialize m d c = .ok b' ∧
      b'.metadata.object_count = b.metadata.object_count ∧
      b'.metadata.total_size = b.metadata.total_size ∧
      ∀ k, (b'.get k).map Object.to_bytes = (b.get k).map Object.to_bytes := by
  refine ⟨_, _, _, Backup.update_hash ⟨b.metadata, b.objects, sha3_256 [], b.config⟩,
    rfl, ?_, rfl, rfl, fun k => rfl⟩
  simp only [Backup.deserialize, jsonDecodeMetadata_enc, jsonDecodeConfig_enc,
    decompress_compress, bincode_objects_roundtrip]

/-- Reachable scenario behind C1: starting from a fresh Backup, a 3-byte
object is inserted twice under the same key, the second insert replacing the
first. -/
def c1Backup : Option Backup :=
  match Object.new [1, 2, 3] 0 with
  | .error _ => none
  | .ok v =>
    match (Backup.new 0).insert [0] v 1 with
    | .error _ => none
    | .ok r1 =>
      match r1.2.insert [0] v 2 with
      | .error _ => none
      | .ok r2 => some r2.2

/-- C1: evaluation of `Backup::insert` at the failing input.  After a
replacing insert the map holds one key of total size 3, but the metadata
reports `object_count = 2` and `total_size = 6`: the code neither subtracts
the replaced object's size nor leaves `object_count` unchanged, so the
spec's metadata invariant fails on the code. -/
theorem backup_replace_metadata_drift :
    c1Backup.isSome = true ∧
    (c1Backup.getD (Backup.new 0)).metadata.object_count = 2 ∧
    (c1Backup.getD (Backup.new 0)).objects.length = 1 ∧
    (c1Backup.getD (Backup.new 0)).metadata.total_size = 6 ∧
    ((c1Backup.getD (Backup.new 0)).objects.map fun e => e.2.len).sum = 3 := by
  decide

theorem evict_ok_of_ne_nil (c : CacheManager) (h : c.cache ≠ []) :
    ∃ c1, c.evict = .ok c1 ∧ c1.cache.length + 1 = c.cache.length ∧ c1.config = c.config := by
  cases hstrat : c.config.eviction_strategy with
  | LeastRecentlyUsed =>
    cases hmin : minByAccess c.cache with
    | none =>
      have hs := minByAccess_isSome c.cache h
      rw [hmin] at hs
      cases hs
    | some e =>
      refine ⟨{ c with cache := (mapRemove c.cache e.1).1 }, ?_, ?_, rfl⟩
      · unfold CacheManager.evict CacheManager.evict_lru
        rw [hstrat, hmin]
      · exact mapRemove_length_of_some _ _
          (mapGet_isSome_of_mem _ _ (minByAccess_mem _ _ hmin))
  | FirstInFirstOut =>
    cases hc : c.cache with
    | nil => exact absurd hc h
    | cons hd rest =>
      refine ⟨{ c with cache := (mapRemove c.cache hd.1).1 }, ?_, ?_, rfl⟩
      · unfold CacheManager.evict CacheManager.evict_fifo
        rw [hstrat, hc]
      · rw [hc]
        obtain ⟨k', v'⟩ := hd
        simp [mapRemove]

theorem evict_ok_spec (c c1 : CacheManager) (h : c.evict = .ok c1) :
    c1.cache.length + 1 = c.cache.length ∧ c1.config = c.config := by
  by_cases hne : c.cache = []
  · unfold CacheManager.evict at h
    cases hstrat : c.config.eviction_strategy with
    | LeastRecentlyUsed =>
      rw [hstrat] at h
      unfold CacheManager.evict_lru at h
      rw [hne] at h
      cases h
    | FirstInFirstOut =>
      rw [hstrat] at h
      unfold CacheManager.evict_fifo at h
      rw [hne] at h
      cases h
  · obtain ⟨c2, hev, hlen, hcfg⟩ := evict_ok_of_ne_nil c hne
    rw [hev] at h
    cases h
    exact ⟨hlen, hcfg⟩

theorem cache_insert_ok_mapGet (c c' : CacheManager) (k : Bytes) (v : Object) (now : Nat)
    (h : c.insert k v now = .ok c') :
    mapGet c'.cache k = some ⟨v, now⟩ := by
  unfold CacheManager.insert at h
  by_cases hfull : c.cache.length ≥ c.config.max_size
  · rw [if_pos hfull] at h
    cases hev : c.evict with
    | error e => rw [hev] at h; cases h
    | ok c1 =>
      rw [hev] at h
      cases h
      exact mapGet_mapInsert_self _ _ _
  · rw [if_neg hfull] at h
    cases h
    exact mapGet_mapInsert_self _ _ _

theorem cache_insert_ok_bound (c c' : CacheManager) (k : Bytes) (v : Object) (now : Nat)
    (hb : c.cache.length ≤ c.config.max_size)
    (h : c.insert k v now = .ok c') :
    c'.cache.length ≤ c'.config.max_size ∧ c'.config = c.config := by
  unfold CacheManager.insert at h
  by_cases hfull : c.cache.length ≥ c.config.max_size
  · rw [if_pos hfull] at h
    cases hev : c.evict with
    | error e => rw [hev] at h; cases h
    | ok c1 =>
      rw [hev] at h
      cases h
      obtain ⟨hlen, hcfg⟩ := evict_ok_spec c c1 hev
      have h1 := mapInsert_length_le c1.cache k (⟨v, now⟩ : CacheEntry)
      refine ⟨?_, by rw [hcfg]⟩
      show (mapInsert c1.cache k ⟨v, now⟩).1.length ≤ c1.config.max_size
      rw [hcfg]
      omega
  · rw [if_neg hfull] at h
    cases h
    have h1 := mapInsert_length_le c.cache k (⟨v, now⟩ : CacheEntry)
    refine ⟨?_, rfl⟩
    show (mapInsert c.cache k ⟨v, now⟩).1.length ≤ c.config.max_size
    omega

theorem cacheLoadEntries_bound :
    ∀ (entries : List (Bytes × Object)) (c : CacheManager) (now : Nat),
    c.cache.length ≤ c.config.max_size →
    (cacheLoadEntries c entries now).2.cache.length ≤
      (cacheLoadEntries c entries now).2.config.max_size
  | [], _, _, h => h
  | (k, v) :: rest, c, now, h => by
    simp only [cacheLoadEntries]
    cases hins : c.insert k v now with
    | ok c' =>
      exact cacheLoadEntries_bound rest c' now (cache_insert_ok_bound c c' k v now h hins).1
    | error e => exact h

/-- The operations of the `CacheManager` API, tagged with the clock value
the source would read from `Instant::now()`. -/
inductive CacheOp where
  | read (k : Bytes) (now : Nat)
  | ins (k : Bytes) (v : Object) (now : Nat)
  | rem (k : Bytes)
  | clear
  | evictExpired (now : Nat)
  | load (b : Backup) (now : Nat)
  | setConfig (cfg : CacheConfig)

def CacheOp.isUpdateConfig : CacheOp → Bool
  | .setConfig _ => true
  | _ => false

def CacheManager.applyOp (c : CacheManager) : CacheOp → CacheManager
  | .read k now => (c.get k now).2
  | .ins k v now =>
    match c.insert k v now with
    | .ok c' => c'
    | .error _ => c
  | .rem k => (c.remove k).2
  | .clear => c.clear
  | .evictExpired now => c.evict_expired now
  | .load b now => (c.load_from_backup b now).2
  | .setConfig cfg => c.update_config cfg

def CacheManager.runOps (c : CacheManager) (ops : List CacheOp) : CacheManager :=
  ops.foldl CacheManager.applyOp c

theorem applyOp_bound (c : CacheManager) (op : CacheOp)
    (hop : op.isUpdateConfig = false)
    (h : c.cache.length ≤ c.config.max_size) :
    (c.applyOp op).cache.length ≤ (c.applyOp op).config.max_size := by
  cases op with
  | read k now =>
    show ((c.get k now).2).cache.length ≤ ((c.get k now).2).config.max_size
    simpa [CacheManager.get, cacheTouch_length] using h
  | ins k v now =>
    show (match c.insert k v now with
          | .ok c' => c'
          | .error _ => c).cache.length ≤
        (match c.insert k v now with
          | .ok c' => c'
          | .error _ => c).config.max_size
    cases hins : c.insert k v now with
    | ok c' => exact (cache_insert_ok_bound c c' k v now h hins).1
    | error e => exact h
  | rem k =>
    have h1 := mapRemove_length_le c.cache k
    show ((c.remove k).2).cache.length ≤ ((c.remove k).2).config.max_size
    simp only [CacheManager.remove]
    omega
  | clear =>
    show (c.clear).cache.length ≤ (c.clear).config.max_size
    simp [CacheManager.clear]
  | evictExpired now =>
    show (c.evict_expired now).cache.length ≤ (c.evict_expired now).config.max_size
    simp only [CacheManager.evict_expired]
    exact le_trans (List.length_filter_le _ _) h
  | load b now => exact cacheLoadEntries_bound b.objects c now h
  | setConfig cfg => simp [CacheOp.isUpdateConfig] at hop

theorem runOps_bound (c : CacheManager) (ops : List CacheOp)
    (hops : ∀ op ∈ ops, op.isUpdateConfig = false)
    (h : c.cache.length ≤ c.config.max_size) :
    (c.runOps ops).cache.length ≤ (c.runOps ops).config.max_size := by
  induction ops generalizing c with
  | nil => exact h
  | cons op rest ih =>
    exact ih (c.applyOp op) (fun o ho => hops o (List.mem_cons_of_mem _ ho))
      (applyOp_bound c op (hops op (List.mem_cons_self _ _)) h)

/-- Fixed sample payload object used by the concrete cache scenarios. -/
def sampleObject : Object := ⟨[7], ⟨[65], 1, 0, 0⟩⟩

/-- Cache state reached by inserting one entry under `max_size = 1` and then
calling `update_config` with `max_size = 0`. -/
def c6Cache : CacheManager :=
  (CacheManager.new ⟨1, 300, .LeastRecentlyUsed⟩).runOps
    [.ins [0] sampleObject 0, .setConfig ⟨0, 300, .LeastRecentlyUsed⟩]

/-- C6 counterexample: a sequence of cache operations containing
`update_config` drives the entry count above the configured `max_size`
(one entry, `max_size = 0`), so the bound does not hold for every sequence
of cache operations. -/
theorem cache_size_bound_counterexample :
    c6Cache.config.max_size < c6Cache.cache.length := by decide

/-- C6 (amended): for every sequence of cache operations that does not
contain `update_config`, the entry count never exceeds the configured
`max_size`; and an insert performed when `len >= max_size` on a nonempty
cache evicts exactly one entry per the eviction strategy before
inserting. -/
theorem cache_size_bound_amended (cfg : CacheConfig) (ops : List CacheOp)
    (hops : ∀ op ∈ ops, op.isUpdateConfig = false)
    (c : CacheManager) (k : Bytes) (v : Object) (now : Nat)
    (hfull : c.config.max_size ≤ c.cache.length) (hne : c.cache ≠ []) :
    ((CacheManager.new cfg).runOps ops).cache.length ≤
      ((CacheManager.new cfg).runOps ops).config.max_size ∧
    ∃ c1, c.evict = .ok c1 ∧ c1.cache.length + 1 = c.cache.length ∧
      c.insert k v now = .ok { c1 with cache := (mapInsert c1.cache k ⟨v, now⟩).1 } := by
  constructor
  · exact runOps_bound _ ops hops (Nat.zero_le _)
  · obtain ⟨c1, hev, hlen, _⟩ := evict_ok_of_ne_nil c hne
    refine ⟨c1, hev, hlen, ?_⟩
    unfold CacheManager.insert
    rw [if_pos (show c.cache.length ≥ c.config.max_size from hfull), hev]

/-- Full one-entry LRU cache at its size bound, used to witness the
eviction clause of the amended C6. -/
def fullLruCache : CacheManager :=
  { cache := [([0], ⟨sampleObject, 0⟩)], config := ⟨1, 300, .LeastRecentlyUsed⟩ }

/-- Witness for the amended C6 at a concrete operation sequence and a
concrete full cache. -/
theorem cache_size_bound_amended_witness :
    ((CacheManager.new ⟨1, 300, .LeastRecentlyUsed⟩).runOps
        [.ins [0] sampleObject 0]).cache.length ≤
      ((CacheManager.new ⟨1, 300, .LeastRecentlyUsed⟩).runOps
        [.ins [0] sampleObject 0]).config.max_size ∧
    ∃ c1, fullLruCache.evict = .ok c1 ∧
      c1.cache.length + 1 = fullLruCache.cache.length ∧
      fullLruCache.insert [1] sampleObject 5 =
        .ok { c1 with cache := (mapInsert c1.cache [1] ⟨sampleObject, 5⟩).1 } :=
  cache_size_bound_amended ⟨1, 300, .LeastRecentlyUsed⟩ [.ins [0] sampleObject 0]
    (by decide) fullLruCache [1] sampleObject 5 (by decide) (by decide)

/-- C10: with `max_size = 0` and an empty cache, every insert requires an
eviction, the eviction of the empty cache fails, and the insert returns an
`InsertionError` without inserting. -/
theorem cache_insert_fails_on_zero_max (c : CacheManager) (k : Bytes) (v : Object)
    (now : Nat) (hmax : c.config.max_size = 0) (hempty : c.cache = []) :
    ∃ msg, c.insert k v now = .error (.InsertionError msg) := by
  have hfull : c.cache.length ≥ c.config.max_size := by
    rw [hmax]
    exact Nat.zero_le _
  have hev : ∃ msg, c.evict = .error (.InsertionError msg) := by
    unfold CacheManager.evict
    cases hstrat : c.config.eviction_strategy with
    | LeastRecentlyUsed =>
      refine ⟨"Failed to evict LRU item", ?_⟩
      unfold CacheManager.evict_lru
      rw [hempty]
      rfl
    | FirstInFirstOut =>
      refine ⟨"Failed to evict FIFO item", ?_⟩
      unfold CacheManager.evict_fifo
      rw [hempty]
  obtain ⟨msg, hev⟩ := hev
  refine ⟨msg, ?_⟩
  unfold CacheManager.insert
  rw [if_pos hfull, hev]

/-- Witness for C10 at a concrete zero-capacity cache. -/
theorem cache_insert_fails_on_zero_max_witness :
    ∃ msg, (CacheManager.new ⟨0, 300, .LeastRecentlyUsed⟩).insert [0] sampleObject 0 =
      .error (.InsertionError msg) :=
  cache_insert_fails_on_zero_max (CacheManager.new ⟨0, 300, .LeastRecentlyUsed⟩)
    [0] sampleObject 0 rfl rfl

deriving instance DecidableEq for Except

theorem object_new_ok (data : Bytes) (now : Nat) (h : data ≠ []) :
    Object.new data now =
      .ok ⟨data, ⟨objectNameBytes now, data.length, now, now⟩⟩ := by
  have h1 : objectNameBytes now ≠ [] := by simp [objectNameBytes]
  have h2 : data.length ≠ 0 := by
    simpa [List.length_eq_zero] using h
  unfold Object.new Metadata.new
  rw [if_neg h, if_neg h1, if_neg h2]

theorem index_insert_ok_spec (s : StorageIndex) (key value : Bytes) (now : Nat)
    (r : Option Bytes) (h : (s.insert key value now).1 = .ok r) :
    value ≠ [] ∧
    (s.insert key value now).2.backup.objects =
      (mapInsert s.backup.objects key
        ⟨value, ⟨objectNameBytes now, value.length, now, now⟩⟩).1 ∧
    mapGet (s.insert key value now).2.cache.cache key =
      some ⟨⟨value, ⟨objectNameBytes now, value.length, now, now⟩⟩, now⟩ ∧
    r = (mapGet s.backup.objects key).map Object.to_bytes := by
  by_cases hval : value = []
  · subst hval
    simp [StorageIndex.insert, Object.new] at h
  · refine ⟨hval, ?_⟩
    have hobj := object_new_ok value now hval
    simp only [StorageIndex.insert, hobj, Backup.insert] at h ⊢
    cases hc : s.cache.insert key
        ⟨value, ⟨objectNameBytes now, value.length, now, now⟩⟩ now with
    | error e =>
      simp only [hc] at h
      cases h
    | ok c' =>
      simp only [hc] at h ⊢
      refine ⟨rfl, cache_insert_ok_mapGet _ _ _ _ _ hc, ?_⟩
      cases h
      rw [mapInsert_snd]

theorem index_get_cache_hit (s : StorageIndex) (k : Bytes) (now : Nat) (e : CacheEntry)
    (h : mapGet s.cache.cache k = some e) :
    (s.get k now).1 = .ok e.object.to_bytes := by
  unfold StorageIndex.get
  simp [CacheManager.get, cacheTouch_fst, h]

theorem index_get_cache_miss (s : StorageIndex) (key : Bytes) (now : Nat)
    (h : mapGet s.cache.cache key = none) :
    (s.get key now).1 =
      (match s.backup.get key with
       | some object => .ok object.to_bytes
       | none => .error .KeyNotFound) := by
  unfold StorageIndex.get
  simp only [CacheManager.get, cacheTouch_fst, h, Option.map_none']
  cases hb : s.backup.get key with
  | some obj => simp [hb]
  | none => simp [hb]

/-- C4: after a successful `StorageIndex::insert(k, v)`, `get(k)` returns
`v`, `contains_key(k)` holds, and both the Backup and the Cache observe the
new value. -/
theorem index_insert_then_get (s : StorageIndex) (key value : Bytes) (now now2 : Nat)
    (r : Option Bytes) (h : (s.insert key value now).1 = .ok r) :
    ((s.insert key value now).2.get key now2).1 = .ok value ∧
    (s.insert key value now).2.contains_key key = true ∧
    ((s.insert key value now).2.backup.get key).map Object.to_bytes = some value ∧
    (∃ e, mapGet (s.insert key value now).2.cache.cache key = some e ∧
      e.object.to_bytes = value) := by
  obtain ⟨hval, hbo, hcg, hr⟩ := index_insert_ok_spec s key value now r h
  have hbg : (s.insert key value now).2.backup.get key =
      some ⟨value, ⟨objectNameBytes now, value.length, now, now⟩⟩ := by
    unfold Backup.get
    rw [hbo]
    exact mapGet_mapInsert_self _ _ _
  refine ⟨?_, ?_, ?_, ⟨_, hcg, rfl⟩⟩
  · exact index_get_cache_hit _ key now2 _ hcg
  · unfold StorageIndex.contains_key
    rw [hbg]
    rfl
  · rw [hbg]
    rfl

/-- Witness for C4: inserting byte value `[7]` under key `[1]` into a fresh
index and reading it back. -/
theorem index_insert_then_get_witness :
    (((StorageIndex.new CacheConfig.default 0).insert [1] [7] 0).2.get [1] 5).1 =
      .ok [7] ∧
    ((StorageIndex.new CacheConfig.default 0).insert [1] [7] 0).2.contains_key [1] =
      true ∧
    (((StorageIndex.new CacheConfig.default 0).insert [1] [7] 0).2.backup.get
      [1]).map Object.to_bytes = some [7] ∧
    (∃ e, mapGet ((StorageIndex.new CacheConfig.default 0).insert
        [1] [7] 0).2.cache.cache [1] = some e ∧ e.object.to_bytes = [7]) :=
  index_insert_then_get (StorageIndex.new CacheConfig.default 0) [1] [7] 0 5 none
    (by decide)

/-- C7: a second insert under an existing key returns the previous value's
bytes, after which `get` returns the new value and `len` is unchanged. -/
theorem index_insert_duplicate_key (s : StorageIndex) (k v1 v2 : Bytes)
    (n1 n2 n3 : Nat) (r1 r2 : Option Bytes)
    (h1 : (s.insert k v1 n1).1 = .ok r1)
    (h2 : ((s.insert k v1 n1).2.insert k v2 n2).1 = .ok r2) :
    r2 = some v1 ∧
    (((s.insert k v1 n1).2.insert k v2 n2).2.get k n3).1 = .ok v2 ∧
    ((s.insert k v1 n1).2.insert k v2 n2).2.len = ((s.insert k v1 n1).2).len := by
  obtain ⟨hval1, hbo1, hcg1, hr1⟩ := index_insert_ok_spec s k v1 n1 r1 h1
  obtain ⟨hval2, hbo2, hcg2, hr2⟩ := index_insert_ok_spec _ k v2 n2 r2 h2
  have hget1 : mapGet ((s.insert k v1 n1).2).backup.objects k =
      some ⟨v1, ⟨objectNameBytes n1, v1.length, n1, n1⟩⟩ := by
    rw [hbo1]
    exact mapGet_mapInsert_self _ _ _
  refine ⟨?_, ?_, ?_⟩
  · rw [hr2, hget1]
    rfl
  · exact index_get_cache_hit _ k n3 _ hcg2
  · unfold StorageIndex.len
    rw [hbo2]
    exact mapInsert_length_of_some _ _ _ (by rw [hget1]; rfl)

/-- Witness for C7: key `[1]` bound to `[7]`, then re-bound to `[8, 9]`. -/
theorem index_insert_duplicate_key_witness :
    some [7] = some [7] ∧
    ((((StorageIndex.new CacheConfig.default 0).insert [1] [7] 0).2.insert
        [1] [8, 9] 1).2.get [1] 2).1 = .ok [8, 9] ∧
    (((StorageIndex.new CacheConfig.default 0).insert [1] [7] 0).2.insert
        [1] [8, 9] 1).2.len =
      (((StorageIndex.new CacheConfig.default 0).insert [1] [7] 0).2).len :=
  index_insert_duplicate_key (StorageIndex.new CacheConfig.default 0)
    [1] [7] [8, 9] 0 1 2 none (some [7]) (by decide) (by decide)

/-- C8: `StorageIndex::get` fails with `KeyNotFound` exactly when the key is
in neither the cache nor the backup; on a cache miss with a backup hit the
value bytes are returned, the cache-population failure being swallowed. -/
theorem index_get_spec (s : StorageIndex) (key : Bytes) (now : Nat) :
    ((s.get key now).1 = .error .KeyNotFound ↔
      mapGet s.cache.cache key = none ∧ s.backup.get key = none) ∧
    ∀ obj, mapGet s.cache.cache key = none → s.backup.get key = some obj →
      (s.get key now).1 = .ok obj.to_bytes := by
  constructor
  · cases hm : mapGet s.cache.cache key with
    | some e =>
      rw [index_get_cache_hit s key now e hm]
      constructor
      · intro hx
        exact Except.noConfusion hx
      · rintro ⟨hc, -⟩
        exact Option.noConfusion hc
    | none =>
      rw [index_get_cache_miss s key now hm]
      cases hb : s.backup.get key with
      | some obj =>
        constructor
        · intro hx
          exact Except.noConfusion hx
        · rintro ⟨-, hbn⟩
          exact Option.noConfusion hbn
      | none =>
        constructor
        · intro _
          exact ⟨rfl, rfl⟩
        · intro _
          rfl
  · intro obj hc hbk
    rw [index_get_cache_miss s key now hc, hbk]

/-- Index whose backup holds key `[1]` while the cache is empty with
`max_size = 0`, so the read-path cache population necessarily fails. -/
def c8Index : StorageIndex :=
  { backup := { metadata := ⟨0, 0, 1, 1, some 3⟩
                objects := [([1], sampleObject)]
                hash := sha3_256 (bincodeSerializeObjects [([1], sampleObject)])
                config := ⟨some 3⟩ }
    cache := CacheManager.new ⟨0, 300, .LeastRecentlyUsed⟩ }

/-- Witness for C8: the backup hit still returns its bytes although the
cache population fails on the zero-capacity cache. -/
theorem index_get_spec_witness :
    (c8Index.get [1] 0).1 = .ok sampleObject.to_bytes :=
  (index_get_spec c8Index [1] 0).2 sampleObject (by decide) (by decide)

/-- C9: `Storage::insert` and `Storage::remove` call `save` — rewriting the
on-disk snapshot blobs from the current index state — unconditionally, also
when the index mutation returned an error; in particular an insert of an
empty value fails with `InvalidData` yet still rewrites both blobs, so a
failed mutation is not atomic with respect to the persisted state. -/
theorem storage_mutations_always_save (st : Storage) (key value : Bytes) (now : Nat) :
    (Storage.insert st key value now).2.disk =
      { objsFile := some (compress_bytes
          (bincodeSerializeObjects ((st.index.insert key value now).2).backup.objects) 3)
        metadataFile := some (jsonEncodeMetadata
          ((st.index.insert key value now).2).backup.metadata)
        configFile := st.disk.configFile } ∧
    (Storage.remove st key now).2.disk =
      { objsFile := some (compress_bytes
          (bincodeSerializeObjects ((st.index.remove key now).2).backup.objects) 3)
        metadataFile := some (jsonEncodeMetadata
          ((st.index.remove key now).2).backup.metadata)
        configFile := st.disk.configFile } ∧
    (Storage.insert st key [] now).1 = .error (.ObjectError .InvalidData) :=
  ⟨rfl, rfl, rfl⟩

/-- Fresh store over an empty on-disk directory. -/
def sampleStorage : Storage :=
  { index := StorageIndex.new CacheConfig.default 0
    disk := { objsFile := none, metadataFile := none, configFile := none } }

/-- C2 counterexample: `Storage::save` on a fresh store over an empty disk
writes the objects blob and the metadata blob but leaves the config slot
unwritten, so the snapshot does not consist of three written blobs. -/
theorem storage_save_omits_config_blob :
    Storage.save sampleStorage =
      .ok { sampleStorage with
            disk := { objsFile := some [0]
                      metadataFile := some [0, 0, 0, 0, 1, 3]
                      configFile := none } } := by
  decide

/-- C2 (amended): `StorageIndex::serialize_backup` returns two blobs — the
compressed objects blob and the metadata JSON blob — and `Storage::save`
writes both of them to disk; no config blob is produced or written. -/
theorem storage_save_writes_two_blobs (st : Storage) :
    st.index.serialize_backup (some 3) =
      .ok (compress_bytes (bincodeSerializeObjects st.index.backup.objects) 3,
           jsonEncodeMetadata st.index.backup.metadata) ∧
    Storage.save st =
      .ok { st with disk :=
        { objsFile := some (compress_bytes
            (bincodeSerializeObjects st.index.backup.objects) 3)
          metadataFile := some (jsonEncodeMetadata st.index.backup.metadata)
          configFile := st.disk.configFile } } :=
  ⟨rfl, rfl⟩
